import Mathlib

/-!
# togglelabs: feature-flag and organization models

A shallow embedding of `pkg/models/feature_flags_model.go` and
`pkg/models/organization_model.go`.

* Go values become Lean structures; a pointer argument that the callee
  mutates is returned next to the result.
* `time.Now()` and `primitive.NewObjectID()` read a `Sys` value that holds
  the sequence of clock readings and the sequence of generated ids, one per
  call, and return the advanced `Sys`.
* The MongoDB collection is a list of typed documents in storage order. Each
  driver call takes the failure (if any) that the storage layer raises in
  that run.
* A Go `error` is `Option Error`, `none` standing for `nil`; a Go pointer
  result is an `Option`, `none` standing for `nil`.
-/

set_option autoImplicit false

namespace Togglelabs

/-! ## Primitive types of the BSON library -/

/-- The type `primitive.ObjectID` (twelve bytes), read as a natural number. -/
abbrev ObjectID := Nat

/-- The value `primitive.NilObjectID`, the zero object id; `primitive.ObjectID{}` is the same value. -/
def NilObjectID : ObjectID := 0

/-- The type `primitive.DateTime`: milliseconds since the Unix epoch. -/
abbrev DateTime := Int

/-- An instant `time.Time`, as nanoseconds since the Unix epoch. -/
abbrev Time := Int

/-- The method `Time.Unix`: whole seconds since the epoch. -/
def Time.Unix (t : Time) : Int := t / 1000000000

/-- The method `Time.Nanosecond`: the nanosecond offset within the second, in `[0, 999999999]`. -/
def Time.Nanosecond (t : Time) : Int := t % 1000000000

/-- The method `Time.UTC`: the same instant with the location set to UTC. -/
def Time.UTC (t : Time) : Time := t

/-- The function `primitive.NewDateTimeFromTime`: `t.Unix()*1e3 + int64(t.Nanosecond())/1e6`
(the 64-bit range is not reached by wall-clock readings and is left out). -/
def NewDateTimeFromTime (t : Time) : DateTime := t.Unix * 1000 + t.Nanosecond / 1000000

/-- Errors the models return. `driver` stands for any failure raised by the storage layer
other than `mongo.ErrNoDocuments`. -/
inductive Error where
  /-- The value `mongo.ErrNoDocuments`. -/
  | ErrNoDocuments
  /-- The value `apiutils.ErrReadPermissionDenied`. -/
  | ErrReadPermissionDenied
  /-- The value `errors.New("unable to assert type of objectID")`. -/
  | unableToAssertObjectID
  /-- Any other storage failure (network, write error, decoding). -/
  | driver (msg : String)
  deriving DecidableEq, Repr

/-! ## The sources of time and of fresh identifiers -/

/-- The ambient system: `clock i` is what the `i`-th call of `time.Now()` returns and
`ids i` is what the `i`-th call of `primitive.NewObjectID()` returns. -/
structure Sys where
  clock : Nat → Time
  ticks : Nat
  ids : Nat → ObjectID
  made : Nat

/-- The call `time.Now()`. -/
def Sys.Now (s : Sys) : Time × Sys :=
  (s.clock s.ticks, { s with ticks := s.ticks + 1 })

/-- The call `primitive.NewObjectID()`. -/
def Sys.NewObjectID (s : Sys) : ObjectID × Sys :=
  (s.ids s.made, { s with made := s.made + 1 })

/-! ## Records -/

/-- Modelled from the spec: `storage.Timestamps` is declared in package `storage`, whose
source is not at hand; the two fields the constructors set are `CreatedAt` and `UpdatedAt`,
the creation and last-update timestamps of a record. -/
structure Timestamps where
  CreatedAt : DateTime
  UpdatedAt : DateTime
  deriving DecidableEq, Repr

/-- Modelled from the spec: `models.UserRecord` is declared in a file of package `models`
that is not at hand; a user is an identity (`ID`) with the credential and name fields that
`PostSignIn` reads from the record. -/
structure UserRecord where
  ID : ObjectID
  Email : String
  Password : String
  FirstName : String
  LastName : String
  deriving DecidableEq, Repr

abbrev RevisionStatus := String

def Live : RevisionStatus := "live"
def Draft : RevisionStatus := "draft"
def Archived : RevisionStatus := "archived"

structure Rule where
  Predicate : String
  Value : String
  Env : String
  IsEnabled : Bool
  deriving DecidableEq, Repr

structure Revision where
  ID : ObjectID
  UserID : ObjectID
  Status : RevisionStatus
  DefaultValue : String
  Rules : List Rule
  deriving DecidableEq, Repr

abbrev FlagType := String

def Boolean : FlagType := "boolean"
def JSON : FlagType := "json"
def String_ : FlagType := "string"
def Number : FlagType := "number"

structure FeatureFlagRecord where
  ID : ObjectID
  OrganizationID : ObjectID
  UserID : ObjectID
  Version : Int
  Name : String
  Type_ : FlagType
  Revisions : List Revision
  Timestamps : Timestamps
  deriving DecidableEq, Repr

abbrev PermissionLevelEnum := String

def Admin : PermissionLevelEnum := "ADMIN"
def Collaborator : PermissionLevelEnum := "COLLABORATOR"
def ReadOnly : PermissionLevelEnum := "READ_ONLY"

structure OrganizationMember where
  User : UserRecord
  PermissionLevel : PermissionLevelEnum
  deriving DecidableEq, Repr

abbrev OrganizationInviteStatus := String

def Pending : OrganizationInviteStatus := "PENDING"
def Accepted : OrganizationInviteStatus := "ACCEPTED"
def Denied : OrganizationInviteStatus := "DENIED"
def Cancelled : OrganizationInviteStatus := "CANCELED"

structure OrganizationInvite where
  Email : String
  Status : OrganizationInviteStatus
  deriving DecidableEq, Repr

structure OrganizationRecord where
  ID : ObjectID
  Name : String
  Members : List OrganizationMember
  Invites : List OrganizationInvite
  Timestamps : Timestamps
  deriving DecidableEq, Repr

/-! ## Record construction -/

/-- The function `NewFeatureFlagRecord`. The fields of the literal are evaluated in source
order: one fresh id, then two clock readings. `ID` keeps its zero value. -/
def NewFeatureFlagRecord (name defaultValue : String) (flagType : FlagType) (rules : List Rule)
    (organizationID userID : ObjectID) (s : Sys) : FeatureFlagRecord × Sys :=
  let (revID, s1) := s.NewObjectID
  let (t1, s2) := s1.Now
  let (t2, s3) := s2.Now
  ({ ID := NilObjectID
     OrganizationID := organizationID
     UserID := userID
     Version := 1
     Name := name
     Type_ := flagType
     Revisions := [
       { ID := revID
         UserID := userID
         Status := Draft
         DefaultValue := defaultValue
         Rules := rules } ]
     Timestamps := {
       CreatedAt := NewDateTimeFromTime t1.UTC
       UpdatedAt := NewDateTimeFromTime t2.UTC } }, s3)

/-- The function `NewRevisionRecord`. -/
def NewRevisionRecord (defaultValue : String) (rules : List Rule) (userID : ObjectID)
    (s : Sys) : Revision × Sys :=
  let (revID, s1) := s.NewObjectID
  ({ ID := revID
     UserID := userID
     Status := Draft
     DefaultValue := defaultValue
     Rules := rules }, s1)

/-- The function `NewOrganizationRecord`. `ID` keeps its zero value and `Invites` is the nil
slice; the clock is read once for `CreatedAt` and once more for `UpdatedAt`. -/
def NewOrganizationRecord (name : String) (admin : UserRecord) (s : Sys) :
    OrganizationRecord × Sys :=
  let (t1, s1) := s.Now
  let (t2, s2) := s1.Now
  ({ ID := NilObjectID
     Name := name
     Members := [
       { User := admin
         PermissionLevel := Admin } ]
     Invites := []
     Timestamps := {
       CreatedAt := NewDateTimeFromTime t1.UTC
       UpdatedAt := NewDateTimeFromTime t2.UTC } }, s2)

/-! ## The document store -/

/-- A value of static type `interface{}`, as found in `InsertOneResult.InsertedID`. -/
inductive Any where
  /-- A value whose dynamic type is `primitive.ObjectID`. -/
  | objectID (id : ObjectID)
  /-- A value of any other dynamic type. -/
  | other (repr : String)
  deriving DecidableEq, Repr

/-- The type assertion `v.(primitive.ObjectID)` in its two-result form. -/
def Any.assertObjectID : Any → ObjectID × Bool
  | .objectID id => (id, true)
  | .other _ => (NilObjectID, false)

/-- The driver's `mongo.InsertOneResult`. -/
structure InsertOneResult where
  InsertedID : Any
  deriving DecidableEq, Repr

/-- The driver's `mongo.UpdateResult`. -/
structure UpdateResult where
  MatchedCount : Nat
  ModifiedCount : Nat
  deriving DecidableEq, Repr

/-- A filter document, as the predicate the server evaluates on a stored document. -/
abbrev Filter (α : Type) := α → Bool

/-- An update document (an operator such as `$push` or `$set` with its values), as its effect
on the matched document: the rewritten document, or the write error the server answers. -/
abbrev Update (α : Type) := α → Except Error α

/-- What the storage layer does during one store operation. `call` is the failure of the
insert, find or update call itself; `decode i` is the failure of decoding the `i`-th document
the operation reads; `next i` is the failure of the `i`-th advance of a cursor (counted from
zero); `insertedID` is what the driver reports as the identifier of an inserted document whose
`_id` is given. -/
structure Run where
  call : Option Error
  decode : Nat → Option Error
  next : Nat → Option Error
  insertedID : ObjectID → Any

/-- The run in which every storage step works and the driver echoes the `_id` it stored. -/
def Run.healthy : Run :=
  { call := none, decode := fun _ => none, next := fun _ => none, insertedID := Any.objectID }

/-- A `mongo.Collection` with documents of type `α`, in storage order. -/
structure Collection (α : Type) where
  docs : List α

/-- A `mongo.Cursor`, as the trace of what it will deliver: one entry of `steps` for each call
of `Next` that returns `true`, holding what `Decode` then returns; `err` is what `Err()`
returns once `Next` has returned `false`. -/
structure Cursor (α : Type) where
  steps : List (Except Error α)
  err : Option Error

/-- The trace of a cursor over `pending` when `i` advances have been made before. -/
def Cursor.over {α : Type} (run : Run) : Nat → List α → Cursor α
  | i, [] => { steps := [], err := run.next i }
  | i, d :: ds =>
    match run.next i with
    | some e => { steps := [], err := some e }
    | none =>
      let rest := Cursor.over run (i + 1) ds
      { steps := (match run.decode i with
                  | some e => Except.error e
                  | none => Except.ok d) :: rest.steps
        err := rest.err }

/-- The driver call `collection.InsertOne(ctx, doc)`, where `id` is the `_id` of `doc`. -/
def Collection.InsertOne {α : Type} (c : Collection α) (run : Run) (id : ObjectID) (doc : α) :
    Except Error InsertOneResult × Collection α :=
  match run.call with
  | some e => (.error e, c)
  | none => (.ok { InsertedID := run.insertedID id }, { docs := c.docs ++ [doc] })

/-- The driver call `collection.FindOne(ctx, filter).Decode(&record)`: the first document
that matches, `mongo.ErrNoDocuments` when there is none. -/
def Collection.FindOne {α : Type} (c : Collection α) (run : Run) (filter : Filter α) :
    Except Error α :=
  match run.call with
  | some e => .error e
  | none =>
    match c.docs.find? filter with
    | none => .error Error.ErrNoDocuments
    | some d =>
      match run.decode 0 with
      | some e => .error e
      | none => .ok d

/-- The driver call `collection.Find(ctx, filter)`. -/
def Collection.Find {α : Type} (c : Collection α) (run : Run) (filter : Filter α) :
    Except Error (Cursor α) :=
  match run.call with
  | some e => .error e
  | none => .ok (Cursor.over run 0 (c.docs.filter filter))

/-- The server applying `update` to the first document of the list that matches `filter`:
the new list and the number of matched documents, or the write error. -/
def updateFirst {α : Type} (filter : Filter α) (update : Update α) :
    List α → Except Error (List α × Nat)
  | [] => .ok ([], 0)
  | d :: ds =>
    if filter d then
      match update d with
      | .error e => .error e
      | .ok d1 => .ok (d1 :: ds, 1)
    else
      match updateFirst filter update ds with
      | .error e => .error e
      | .ok (ds1, n) => .ok (d :: ds1, n)

/-- The driver call `collection.UpdateOne(ctx, filter, update)`. Matching no document is not
an error: the result then reports `MatchedCount = 0`. -/
def Collection.UpdateOne {α : Type} (c : Collection α) (run : Run) (filter : Filter α)
    (update : Update α) : Except Error UpdateResult × Collection α :=
  match run.call with
  | some e => (.error e, c)
  | none =>
    match updateFirst filter update c.docs with
    | .error e => (.error e, c)
    | .ok (docs1, n) => (.ok { MatchedCount := n, ModifiedCount := n }, { docs := docs1 })

/-- The update `{"$push": {"revisions": v}}` on a flag document whose `revisions` field is an
array: `v` becomes its last element. -/
def pushRevisions (v : Revision) : Update FeatureFlagRecord :=
  fun d => .ok { d with Revisions := d.Revisions ++ [v] }

/-! ## The feature-flag model -/

structure FeatureFlagModel where
  collection : Collection FeatureFlagRecord

/-- The method `FeatureFlagModel.InsertOne`. The record behind the pointer `rec` is returned
as third component, with the `ID` the method assigned. -/
def FeatureFlagModel.InsertOne (ffm : FeatureFlagModel) (run : Run) (rec : FeatureFlagRecord)
    (s : Sys) : ObjectID × Option Error × FeatureFlagRecord × FeatureFlagModel × Sys :=
  let (newID, s1) := s.NewObjectID
  let rec1 := { rec with ID := newID }
  let (result, collection1) := ffm.collection.InsertOne run rec1.ID rec1
  match result with
  | .error err => (NilObjectID, some err, rec1, { collection := collection1 }, s1)
  | .ok result =>
    let (objectID, ok) := result.InsertedID.assertObjectID
    if !ok then
      (NilObjectID, some Error.unableToAssertObjectID, rec1, { collection := collection1 }, s1)
    else
      (objectID, none, rec1, { collection := collection1 }, s1)

/-- The method `FeatureFlagModel.FindByID`: `.error err` is `return nil, err` and `.ok record`
is `return record, nil`. -/
def FeatureFlagModel.FindByID (ffm : FeatureFlagModel) (run : Run) (id : ObjectID) :
    Except Error FeatureFlagRecord :=
  match ffm.collection.FindOne run (fun d => d.ID == id) with
  | .error err => .error err
  | .ok record => .ok record

/-- The package variable `EmptyFeatureRecordList`, a non-nil slice of length zero. -/
def EmptyFeatureRecordList : Option (List FeatureFlagRecord) := some []

/-- The loop `for cursor.Next(ctx)` of `FindMany` over the remaining steps of the cursor.
When `Next` returns `false` the loop ends and `records` is returned with a nil error. -/
def FeatureFlagModel.FindMany.loop :
    List (Except Error FeatureFlagRecord) → List FeatureFlagRecord →
    Option (List FeatureFlagRecord) × Option Error
  | [], records => (some records, none)
  | .error err :: _, _ => (EmptyFeatureRecordList, some err)
  | .ok record :: rest, records => FeatureFlagModel.FindMany.loop rest (records ++ [record])

/-- The method `FeatureFlagModel.FindMany`. The returned slice is an `Option`, `none` standing
for the nil slice. -/
def FeatureFlagModel.FindMany (ffm : FeatureFlagModel) (run : Run) (organizationID : ObjectID) :
    Option (List FeatureFlagRecord) × Option Error :=
  let records : List FeatureFlagRecord := []
  match ffm.collection.Find run (fun d => d.OrganizationID == organizationID) with
  | .error err => (EmptyFeatureRecordList, some err)
  | .ok cursor => FeatureFlagModel.FindMany.loop cursor.steps records

/-- The method `FeatureFlagModel.PushOne`; `newValues` is the effect of `$push` with the given
values. The driver's `UpdateResult` is discarded. -/
def FeatureFlagModel.PushOne (ffm : FeatureFlagModel) (run : Run) (id : ObjectID)
    (newValues : Update FeatureFlagRecord) : ObjectID × Option Error × FeatureFlagModel :=
  let filter : Filter FeatureFlagRecord := fun d => d.ID == id
  let update := newValues
  match ffm.collection.UpdateOne run filter update with
  | (.error err, collection1) => (NilObjectID, some err, { collection := collection1 })
  | (.ok _, collection1) => (id, none, { collection := collection1 })

/-- The method `FeatureFlagModel.UpdateOne`; `newValues` is the effect of `$set` with the given
values. The driver's `UpdateResult` is discarded. -/
def FeatureFlagModel.UpdateOne (ffm : FeatureFlagModel) (run : Run)
    (filters : Filter FeatureFlagRecord) (newValues : Update FeatureFlagRecord) :
    ObjectID × Option Error × FeatureFlagModel :=
  let update := newValues
  match ffm.collection.UpdateOne run filters update with
  | (.error err, collection1) => (NilObjectID, some err, { collection := collection1 })
  | (.ok _, collection1) => (NilObjectID, none, { collection := collection1 })

/-! ## The organization model -/

structure OrganizationModel where
  collection : Collection OrganizationRecord

/-- The method `OrganizationModel.FindByID`: `.error err` is `return nil, err` and
`.ok record` is `return record, nil`. -/
def OrganizationModel.FindByID (om : OrganizationModel) (run : Run) (id : ObjectID) :
    Except Error OrganizationRecord :=
  match om.collection.FindOne run (fun d => d.ID == id) with
  | .error err => .error err
  | .ok record => .ok record

/-- The method `OrganizationModel.InsertOne`. The record behind the pointer `record` is
returned as third component, with the `ID` the method assigned. -/
def OrganizationModel.InsertOne (om : OrganizationModel) (run : Run)
    (record : OrganizationRecord) (s : Sys) :
    ObjectID × Option Error × OrganizationRecord × OrganizationModel × Sys :=
  let (newID, s1) := s.NewObjectID
  let record1 := { record with ID := newID }
  let (result, collection1) := om.collection.InsertOne run record1.ID record1
  match result with
  | .error err => (NilObjectID, some err, record1, { collection := collection1 }, s1)
  | .ok result =>
    let (objectID, ok) := result.InsertedID.assertObjectID
    if !ok then
      (NilObjectID, some Error.unableToAssertObjectID, record1, { collection := collection1 }, s1)
    else
      (objectID, none, record1, { collection := collection1 }, s1)

/-- The loop of `UserHasReadPermission` over `organization.Members`: `isMember` becomes
`true` at the first member whose `User.ID` is `userID`, and the loop stops there. -/
def OrganizationModel.UserHasReadPermission.loop (userID : ObjectID) :
    List OrganizationMember → Bool → Bool
  | [], isMember => isMember
  | member :: rest, isMember =>
    if member.User.ID == userID then true
    else OrganizationModel.UserHasReadPermission.loop userID rest isMember

/-- The method `OrganizationModel.UserHasReadPermission`. -/
def OrganizationModel.UserHasReadPermission (om : OrganizationModel) (run : Run)
    (userID organizationID : ObjectID) : Option Error :=
  match om.FindByID run organizationID with
  | .error err => some err
  | .ok organization =>
    let isMember := OrganizationModel.UserHasReadPermission.loop userID organization.Members false
    if !isMember then some Error.ErrReadPermissionDenied
    else none

/-! ## Record construction: what the constructors establish -/

/-- C2: `NewFeatureFlagRecord` returns a record with `Version = 1`, the given name, type,
organization id and user id, and exactly one revision, which is a draft by the given user
with the given default value and rules. -/
theorem NewFeatureFlagRecord_initial_state (name defaultValue : String) (flagType : FlagType)
    (rules : List Rule) (organizationID userID : ObjectID) (s : Sys) :
    (NewFeatureFlagRecord name defaultValue flagType rules organizationID userID s).1.Version = 1 ∧
    (NewFeatureFlagRecord name defaultValue flagType rules organizationID userID s).1.Name = name ∧
    (NewFeatureFlagRecord name defaultValue flagType rules organizationID userID s).1.Type_
      = flagType ∧
    (NewFeatureFlagRecord name defaultValue flagType rules organizationID userID s).1.OrganizationID
      = organizationID ∧
    (NewFeatureFlagRecord name defaultValue flagType rules organizationID userID s).1.UserID
      = userID ∧
    (NewFeatureFlagRecord name defaultValue flagType rules organizationID userID s).1.Revisions.length
      = 1 ∧
    ∃ rev : Revision,
      (NewFeatureFlagRecord name defaultValue flagType rules organizationID userID s).1.Revisions
        = [rev] ∧
      rev.Status = Draft ∧ rev.UserID = userID ∧ rev.DefaultValue = defaultValue ∧
      rev.Rules = rules := by
  refine ⟨rfl, rfl, rfl, rfl, rfl, rfl, ?_⟩
  exact ⟨_, rfl, rfl, rfl, rfl, rfl⟩

/-- C3: `NewOrganizationRecord` returns a record with the given name, exactly one member,
who is the given admin with permission level `Admin` (so the user ids in `Members` are
pairwise distinct), and no invites. -/
theorem NewOrganizationRecord_initial_state (name : String) (admin : UserRecord) (s : Sys) :
    (NewOrganizationRecord name admin s).1.Name = name ∧
    (NewOrganizationRecord name admin s).1.Members.length = 1 ∧
    (∃ member : OrganizationMember,
      (NewOrganizationRecord name admin s).1.Members = [member] ∧
      member.User = admin ∧ member.PermissionLevel = Admin) ∧
    ((NewOrganizationRecord name admin s).1.Members.map (fun m => m.User.ID)).Nodup ∧
    (NewOrganizationRecord name admin s).1.Invites.length = 0 := by
  refine ⟨rfl, rfl, ⟨_, rfl, rfl, rfl⟩, ?_, rfl⟩
  simp [NewOrganizationRecord]

/-- C9: `NewRevisionRecord` returns a draft by the given user with the given default value
and rules, and it differs at most in `ID` from the one revision that `NewFeatureFlagRecord`
builds from the same default value, rules and user id. -/
theorem NewRevisionRecord_initial_state (defaultValue : String) (rules : List Rule)
    (userID : ObjectID) (s : Sys) :
    (NewRevisionRecord defaultValue rules userID s).1.Status = Draft ∧
    (NewRevisionRecord defaultValue rules userID s).1.UserID = userID ∧
    (NewRevisionRecord defaultValue rules userID s).1.DefaultValue = defaultValue ∧
    (NewRevisionRecord defaultValue rules userID s).1.Rules = rules ∧
    ∀ (name : String) (flagType : FlagType) (organizationID : ObjectID) (s2 : Sys),
      ∃ rev : Revision,
        (NewFeatureFlagRecord name defaultValue flagType rules organizationID userID s2).1.Revisions
          = [rev] ∧
        rev.UserID = (NewRevisionRecord defaultValue rules userID s).1.UserID ∧
        rev.Status = (NewRevisionRecord defaultValue rules userID s).1.Status ∧
        rev.DefaultValue = (NewRevisionRecord defaultValue rules userID s).1.DefaultValue ∧
        rev.Rules = (NewRevisionRecord defaultValue rules userID s).1.Rules ∧
        { rev with ID := (NewRevisionRecord defaultValue rules userID s).1.ID }
          = (NewRevisionRecord defaultValue rules userID s).1 := by
  refine ⟨rfl, rfl, rfl, rfl, ?_⟩
  intro name flagType organizationID s2
  exact ⟨_, rfl, rfl, rfl, rfl, rfl, rfl⟩

/-! ## Timestamps at creation -/

/-- The date-time of an instant is its count of whole milliseconds since the epoch. -/
theorem NewDateTimeFromTime_eq_div (t : Time) : NewDateTimeFromTime t = t / 1000000 := by
  have key : ∀ n : Int, n / 1000000000 * 1000 + n % 1000000000 / 1000000 = n / 1000000 := by
    intro n
    omega
  exact key t

/-- A clock that advances by one millisecond at every reading. -/
def millisecondClock : Sys :=
  { clock := fun i => (i : Int) * 1000000, ticks := 0, ids := fun i => i + 1, made := 0 }

/-- A clock that stands still. -/
def frozenClock : Sys :=
  { clock := fun _ => 1700000000000000000, ticks := 0, ids := fun i => i + 1, made := 0 }

/-- The user record used in the examples. -/
def alice : UserRecord :=
  { ID := 161, Email := "a@x.io", Password := "", FirstName := "A", LastName := "L" }

/-- C4, as stated, fails: under a non-decreasing clock that has moved on by one millisecond
between the two readings, `NewOrganizationRecord` returns `CreatedAt = 0` and `UpdatedAt = 1`,
so the two timestamps differ at creation. -/
theorem NewOrganizationRecord_timestamps_differ :
    Monotone millisecondClock.clock ∧
    (NewOrganizationRecord "acme" alice millisecondClock).1.Timestamps.CreatedAt = 0 ∧
    (NewOrganizationRecord "acme" alice millisecondClock).1.Timestamps.UpdatedAt = 1 ∧
    (NewOrganizationRecord "acme" alice millisecondClock).1.Timestamps.CreatedAt
      ≠ (NewOrganizationRecord "acme" alice millisecondClock).1.Timestamps.UpdatedAt := by
  refine ⟨?_, by decide, by decide, by decide⟩
  intro a b hab
  have hab1 : (a : Int) ≤ (b : Int) := by exact_mod_cast hab
  have key : ∀ x y : Int, x ≤ y → x * 1000000 ≤ y * 1000000 := by
    intro x y hxy
    omega
  exact key _ _ hab1

/-- C4, amended: under a non-decreasing clock `NewOrganizationRecord` returns
`CreatedAt ≤ UpdatedAt`, the two being the milliseconds of the first and of the second
reading; they are equal exactly when both readings fall in the same millisecond. -/
theorem NewOrganizationRecord_timestamps_ordered (name : String) (admin : UserRecord) (s : Sys)
    (hclock : Monotone s.clock) :
    (NewOrganizationRecord name admin s).1.Timestamps.CreatedAt
      ≤ (NewOrganizationRecord name admin s).1.Timestamps.UpdatedAt ∧
    ((NewOrganizationRecord name admin s).1.Timestamps.CreatedAt
        = (NewOrganizationRecord name admin s).1.Timestamps.UpdatedAt ↔
      s.clock s.ticks / 1000000 = s.clock (s.ticks + 1) / 1000000) := by
  have h12 : s.clock s.ticks ≤ s.clock (s.ticks + 1) := hclock (Nat.le_succ _)
  have hc : (NewOrganizationRecord name admin s).1.Timestamps.CreatedAt
      = s.clock s.ticks / 1000000 := by
    simp [NewOrganizationRecord, Sys.Now, Time.UTC, NewDateTimeFromTime_eq_div]
  have hu : (NewOrganizationRecord name admin s).1.Timestamps.UpdatedAt
      = s.clock (s.ticks + 1) / 1000000 := by
    simp [NewOrganizationRecord, Sys.Now, Time.UTC, NewDateTimeFromTime_eq_div]
  rw [hc, hu]
  refine ⟨?_, Iff.rfl⟩
  have key : ∀ x y : Int, x ≤ y → x / 1000000 ≤ y / 1000000 := by
    intro x y hxy
    omega
  exact key _ _ h12

/-- C4, amended, at a clock that stands still: both timestamps are the same millisecond. -/
theorem NewOrganizationRecord_timestamps_ordered_witness :
    Monotone frozenClock.clock ∧
    (NewOrganizationRecord "acme" alice frozenClock).1.Timestamps.CreatedAt
      ≤ (NewOrganizationRecord "acme" alice frozenClock).1.Timestamps.UpdatedAt ∧
    ((NewOrganizationRecord "acme" alice frozenClock).1.Timestamps.CreatedAt
        = (NewOrganizationRecord "acme" alice frozenClock).1.Timestamps.UpdatedAt ↔
      frozenClock.clock frozenClock.ticks / 1000000
        = frozenClock.clock (frozenClock.ticks + 1) / 1000000) :=
  ⟨fun _ _ _ => le_refl _,
   NewOrganizationRecord_timestamps_ordered "acme" alice frozenClock (fun _ _ _ => le_refl _)⟩

/-! ## Read permission -/

/-- The membership loop answers `true` exactly when it started from `true` or some member
has the user id looked for. -/
theorem UserHasReadPermission_loop_eq_true (userID : ObjectID) (members : List OrganizationMember)
    (isMember : Bool) :
    OrganizationModel.UserHasReadPermission.loop userID members isMember = true ↔
      isMember = true ∨ ∃ m ∈ members, m.User.ID = userID := by
  induction members with
  | nil => simp [OrganizationModel.UserHasReadPermission.loop]
  | cons member rest ih =>
    unfold OrganizationModel.UserHasReadPermission.loop
    by_cases h : member.User.ID = userID
    · simp [h]
    · simp [h, ih]

/-- The outcome of `UserHasReadPermission` once the lookup has returned `organization`. -/
theorem UserHasReadPermission_of_found (om : OrganizationModel) (run : Run)
    (userID organizationID : ObjectID) (organization : OrganizationRecord)
    (hfound : om.FindByID run organizationID = .ok organization) :
    om.UserHasReadPermission run userID organizationID =
      if ∃ m ∈ organization.Members, m.User.ID = userID then none
      else some Error.ErrReadPermissionDenied := by
  unfold OrganizationModel.UserHasReadPermission
  rw [hfound]
  by_cases h : ∃ m ∈ organization.Members, m.User.ID = userID
  · have hl := (UserHasReadPermission_loop_eq_true userID organization.Members false).2 (Or.inr h)
    simp [hl, h]
  · have hl : OrganizationModel.UserHasReadPermission.loop userID organization.Members false
        = false := by
      cases hb : OrganizationModel.UserHasReadPermission.loop userID organization.Members false
      · rfl
      · rcases (UserHasReadPermission_loop_eq_true userID organization.Members false).1 hb with
          h1 | h1
        · cases h1
        · exact absurd h1 h
    simp only [hl, if_neg h]
    rfl

/-- The organization `o` with every member's permission level rewritten by `g`. -/
def relevel (g : PermissionLevelEnum → PermissionLevelEnum) (o : OrganizationRecord) :
    OrganizationRecord :=
  { o with Members := o.Members.map (fun m => { m with PermissionLevel := g m.PermissionLevel }) }

/-- C1: when the store holds an organization under id `o` and the lookup goes through,
`UserHasReadPermission(u, o)` returns no error exactly when some member of that organization
has `User.ID = u`, and `ErrReadPermissionDenied` otherwise; rewriting the members' permission
levels changes nothing; when the lookup fails it returns the lookup's error, which is
`mongo.ErrNoDocuments` when no organization has id `o`. -/
theorem UserHasReadPermission_spec (om : OrganizationModel) (run : Run) (u o : ObjectID) :
    (∀ org : OrganizationRecord,
      om.collection.docs.find? (fun d => d.ID == o) = some org →
      run.call = none → run.decode 0 = none →
        om.FindByID run o = .ok org ∧
        (om.UserHasReadPermission run u o = none ↔ ∃ m ∈ org.Members, m.User.ID = u) ∧
        ((¬ ∃ m ∈ org.Members, m.User.ID = u) →
          om.UserHasReadPermission run u o = some Error.ErrReadPermissionDenied) ∧
        ∀ g : PermissionLevelEnum → PermissionLevelEnum,
          OrganizationModel.UserHasReadPermission
              { collection := { docs := om.collection.docs.map (relevel g) } } run u o
            = om.UserHasReadPermission run u o) ∧
    (∀ err : Error, om.FindByID run o = .error err →
      om.UserHasReadPermission run u o = some err) ∧
    ((∀ d ∈ om.collection.docs, d.ID ≠ o) → run.call = none →
      om.FindByID run o = .error Error.ErrNoDocuments ∧
      om.UserHasReadPermission run u o = some Error.ErrNoDocuments) := by
  refine ⟨?_, ?_, ?_⟩
  · intro org hfind hcall hdecode
    have hfound : om.FindByID run o = .ok org := by
      simp [OrganizationModel.FindByID, Collection.FindOne, hcall, hfind, hdecode]
    have hres := UserHasReadPermission_of_found om run u o org hfound
    refine ⟨hfound, ?_, ?_, ?_⟩
    · rw [hres]
      by_cases h : ∃ m ∈ org.Members, m.User.ID = u
      · simp [h]
      · simp only [if_neg h, h, iff_false]
        exact fun hc => by cases hc
    · intro h
      rw [hres, if_neg h]
    · intro g
      have hfind2 : (om.collection.docs.map (relevel g)).find? (fun d => d.ID == o)
          = some (relevel g org) := by
        rw [List.find?_map]
        have : ((fun d : OrganizationRecord => d.ID == o) ∘ relevel g)
            = (fun d : OrganizationRecord => d.ID == o) := by
          funext d
          rfl
        rw [this, hfind]
        rfl
      have hfound2 : OrganizationModel.FindByID
          { collection := { docs := om.collection.docs.map (relevel g) } } run o
            = .ok (relevel g org) := by
        simp [OrganizationModel.FindByID, Collection.FindOne, hcall, hfind2, hdecode]
      rw [hres, UserHasReadPermission_of_found _ run u o _ hfound2]
      have hiff : (∃ m ∈ (relevel g org).Members, m.User.ID = u) ↔
          ∃ m ∈ org.Members, m.User.ID = u := by
        simp [relevel]
      by_cases h : ∃ m ∈ org.Members, m.User.ID = u
      · rw [if_pos h, if_pos (hiff.2 h)]
      · rw [if_neg h, if_neg (fun hc => h (hiff.1 hc))]
  · intro err herr
    unfold OrganizationModel.UserHasReadPermission
    rw [herr]
  · intro habsent hcall
    have hfind : om.collection.docs.find? (fun d => d.ID == o) = none := by
      rw [List.find?_eq_none]
      intro d hd
      simpa using habsent d hd
    have hlookup : om.FindByID run o = .error Error.ErrNoDocuments := by
      simp [OrganizationModel.FindByID, Collection.FindOne, hcall, hfind]
    refine ⟨hlookup, ?_⟩
    unfold OrganizationModel.UserHasReadPermission
    rw [hlookup]

/-- An organization with one admin and one read-only member. -/
def acme : OrganizationRecord :=
  { ID := 7, Name := "acme"
    Members := [
      { User := alice, PermissionLevel := Admin },
      { User := { alice with ID := 162, Email := "b@x.io" }, PermissionLevel := ReadOnly } ]
    Invites := []
    Timestamps := { CreatedAt := 0, UpdatedAt := 0 } }

/-- A store that holds `acme` only. -/
def acmeStore : OrganizationModel := { collection := { docs := [acme] } }

/-- C1 at a store holding organization 7 with members 161 and 162: user 162 is let in. -/
theorem UserHasReadPermission_spec_witness :
    acmeStore.FindByID Run.healthy 7 = .ok acme ∧
    (acmeStore.UserHasReadPermission Run.healthy 162 7 = none ↔
      ∃ m ∈ acme.Members, m.User.ID = 162) ∧
    acmeStore.UserHasReadPermission Run.healthy 162 7 = none :=
  have h := (UserHasReadPermission_spec acmeStore Run.healthy 162 7).1 acme rfl rfl rfl
  ⟨h.1, h.2.1, by decide⟩

/-! ## Updates -/

/-- When no document matches, the server leaves the list as it is and reports no match. -/
theorem updateFirst_no_match {α : Type} (filter : Filter α) (update : Update α) (l : List α)
    (hno : ∀ d ∈ l, filter d = false) : updateFirst filter update l = .ok (l, 0) := by
  induction l with
  | nil => rfl
  | cons d ds ih =>
    have hd : filter d = false := hno d (List.mem_cons_self d ds)
    have hds : ∀ x ∈ ds, filter x = false := fun x hx => hno x (List.mem_cons_of_mem d hx)
    simp [updateFirst, hd, ih hds]

/-- Pushing a revision rewrites the first flag with the given id and nothing else. -/
theorem updateFirst_pushRevisions (f : ObjectID) (v : Revision) (l : List FeatureFlagRecord)
    (flag : FeatureFlagRecord) (hflag : l.find? (fun d => d.ID == f) = some flag) :
    ∃ before after : List FeatureFlagRecord,
      l = before ++ flag :: after ∧ (∀ d ∈ before, d.ID ≠ f) ∧
      updateFirst (fun d => d.ID == f) (pushRevisions v) l
        = .ok (before ++ { flag with Revisions := flag.Revisions ++ [v] } :: after, 1) := by
  induction l with
  | nil => simp at hflag
  | cons d ds ih =>
    by_cases hd : d.ID = f
    · have hb : (d.ID == f) = true := by simpa using hd
      have hdf : d = flag := by
        rw [List.find?_cons, hb] at hflag
        exact Option.some.inj hflag
      subst hdf
      refine ⟨[], ds, rfl, ?_, ?_⟩
      · intro x hx
        cases hx
      · simp [updateFirst, hd, pushRevisions]
    · have hb : (d.ID == f) = false := by simpa using hd
      have hrest : ds.find? (fun d => d.ID == f) = some flag := by
        rw [List.find?_cons, hb] at hflag
        exact hflag
      obtain ⟨before, after, hl, hbefore, hupd⟩ := ih hrest
      refine ⟨d :: before, after, ?_, ?_, ?_⟩
      · simp [hl]
      · intro x hx
        rcases List.mem_cons.1 hx with h1 | h1
        · rw [h1]
          exact hd
        · exact hbefore x h1
      · simp [updateFirst, hd, hupd]

/-- The first document with id `f` in a list where no earlier document has that id. -/
theorem find_after_rewrite (f : ObjectID) (before after : List FeatureFlagRecord)
    (d : FeatureFlagRecord) (hbefore : ∀ x ∈ before, x.ID ≠ f) (hd : d.ID = f) :
    (before ++ d :: after).find? (fun x => x.ID == f) = some d := by
  induction before with
  | nil => simp [List.find?, hd]
  | cons b bs ih =>
    have hb : b.ID ≠ f := hbefore b (List.mem_cons_self b bs)
    have hbs : ∀ x ∈ bs, x.ID ≠ f := fun x hx => hbefore x (List.mem_cons_of_mem b hx)
    have hbf : (b.ID == f) = false := by simpa using hb
    rw [List.cons_append, List.find?_cons, hbf]
    exact ih hbs

/-- A lookup by another id does not see the rewrite of the flag with id `f`. -/
theorem find_other_after_rewrite (f id : ObjectID) (before after : List FeatureFlagRecord)
    (d d1 : FeatureFlagRecord) (hd : d.ID = f) (hd1 : d1.ID = f) (hid : id ≠ f) :
    (before ++ d1 :: after).find? (fun x => x.ID == id)
      = (before ++ d :: after).find? (fun x => x.ID == id) := by
  have h : (d.ID == id) = false := by
    rw [hd]
    simpa using fun h => hid h.symm
  have h1 : (d1.ID == id) = false := by
    rw [hd1]
    simpa using fun h => hid h.symm
  induction before with
  | nil => simp [List.find?, h, h1]
  | cons b bs ih =>
    rw [List.cons_append, List.cons_append, List.find?_cons, List.find?_cons, ih]

/-- C5: when the store holds a flag with id `f` and `PushOne(f, {revisions: v})` returns a
nil error, it returns the id `f`, and afterwards `FindByID(f)` returns that flag with `v`
appended after its earlier revisions, every other field as before; the store differs from the
old one in that flag only, so every lookup by another id answers as before. -/
theorem PushOne_appends_revision (ffm : FeatureFlagModel) (run : Run) (f : ObjectID)
    (flag : FeatureFlagRecord) (v : Revision)
    (hflag : ffm.FindByID Run.healthy f = .ok flag)
    (hok : (ffm.PushOne run f (pushRevisions v)).2.1 = none) :
    (ffm.PushOne run f (pushRevisions v)).1 = f ∧
    (ffm.PushOne run f (pushRevisions v)).2.2.FindByID Run.healthy f
      = .ok { flag with Revisions := flag.Revisions ++ [v] } ∧
    ({ flag with Revisions := flag.Revisions ++ [v] } : FeatureFlagRecord).Revisions.length
      = flag.Revisions.length + 1 ∧
    (∃ before after : List FeatureFlagRecord,
      (∀ d ∈ before, d.ID ≠ f) ∧
      ffm.collection.docs = before ++ flag :: after ∧
      (ffm.PushOne run f (pushRevisions v)).2.2.collection.docs
        = before ++ { flag with Revisions := flag.Revisions ++ [v] } :: after) ∧
    ∀ (id : ObjectID) (run2 : Run), id ≠ f →
      (ffm.PushOne run f (pushRevisions v)).2.2.FindByID run2 id = ffm.FindByID run2 id := by
  have hfind : ffm.collection.docs.find? (fun d => d.ID == f) = some flag := by
    cases hf : ffm.collection.docs.find? (fun d => d.ID == f) with
    | none => simp [FeatureFlagModel.FindByID, Collection.FindOne, Run.healthy, hf] at hflag
    | some d =>
      simp [FeatureFlagModel.FindByID, Collection.FindOne, Run.healthy, hf] at hflag
      rw [hflag]
  have hid : flag.ID = f := by
    simpa using List.find?_some hfind
  obtain ⟨before, after, hl, hbefore, hupd⟩ :=
    updateFirst_pushRevisions f v ffm.collection.docs flag hfind
  cases hcall : run.call with
  | some e =>
    simp [FeatureFlagModel.PushOne, Collection.UpdateOne, hcall] at hok
  | none =>
    have hpush : ffm.PushOne run f (pushRevisions v)
        = (f, none, { collection := { docs :=
            before ++ { flag with Revisions := flag.Revisions ++ [v] } :: after } }) := by
      simp [FeatureFlagModel.PushOne, Collection.UpdateOne, hcall, hupd]
    rw [hpush]
    refine ⟨rfl, ?_, ?_, ⟨before, after, hbefore, hl, rfl⟩, ?_⟩
    · have h2 := find_after_rewrite f before after
        { flag with Revisions := flag.Revisions ++ [v] } hbefore hid
      simp [FeatureFlagModel.FindByID, Collection.FindOne, Run.healthy, h2]
    · simp
    · intro id run2 hne
      have h3 := find_other_after_rewrite f id before after flag
        { flag with Revisions := flag.Revisions ++ [v] } hid hid hne
      simp only [FeatureFlagModel.FindByID, Collection.FindOne, h3, hl]

/-- A draft revision by user 161. -/
def firstDraft : Revision :=
  { ID := 41, UserID := 161, Status := Draft, DefaultValue := "false", Rules := [] }

/-- A live revision by user 161 with one rule. -/
def liveRevision : Revision :=
  { ID := 42, UserID := 161, Status := Live, DefaultValue := "true"
    Rules := [{ Predicate := "beta", Value := "true", Env := "production", IsEnabled := true }] }

/-- The flag "dark-mode" of organization 7, stored under id 31. -/
def darkMode : FeatureFlagRecord :=
  { ID := 31, OrganizationID := 7, UserID := 161, Version := 1, Name := "dark-mode"
    Type_ := Boolean, Revisions := [firstDraft]
    Timestamps := { CreatedAt := 5, UpdatedAt := 5 } }

/-- The flag "banner" of organization 7, stored under id 32. -/
def banner : FeatureFlagRecord :=
  { ID := 32, OrganizationID := 7, UserID := 161, Version := 1, Name := "banner"
    Type_ := String_, Revisions := [firstDraft]
    Timestamps := { CreatedAt := 6, UpdatedAt := 6 } }

/-- The flag "quota" of organization 8, stored under id 33. -/
def quota : FeatureFlagRecord :=
  { ID := 33, OrganizationID := 8, UserID := 162, Version := 1, Name := "quota"
    Type_ := Number, Revisions := []
    Timestamps := { CreatedAt := 7, UpdatedAt := 7 } }

/-- A store with three flags, two of them of organization 7. -/
def flagStore : FeatureFlagModel := { collection := { docs := [darkMode, quota, banner] } }

/-- C5 at a store holding "dark-mode" under id 31: after pushing a live revision the flag
read back has the draft followed by the live revision. -/
theorem PushOne_appends_revision_witness :
    flagStore.FindByID Run.healthy 31 = .ok darkMode ∧
    (flagStore.PushOne Run.healthy 31 (pushRevisions liveRevision)).2.1 = none ∧
    (flagStore.PushOne Run.healthy 31 (pushRevisions liveRevision)).1 = 31 ∧
    (flagStore.PushOne Run.healthy 31 (pushRevisions liveRevision)).2.2.FindByID Run.healthy 31
      = .ok { darkMode with Revisions := darkMode.Revisions ++ [liveRevision] } :=
  have h := PushOne_appends_revision flagStore Run.healthy 31 darkMode liveRevision rfl rfl
  ⟨rfl, rfl, h.1, h.2.1⟩

/-- C10: `PushOne` and `UpdateOne` report success whenever the driver's update call returns
no error, whatever the match count: for an id `f` that no flag has, or a filter that no flag
satisfies, the call reports zero matches, `PushOne` still returns `(f, nil)` and `UpdateOne`
returns the nil object id with a nil error, the store is as before and `f` is still not
found. -/
theorem PushOne_UpdateOne_ignore_match_count (ffm : FeatureFlagModel) (run : Run) :
    (∀ (f : ObjectID) (newValues : Update FeatureFlagRecord) (res : UpdateResult)
        (c1 : Collection FeatureFlagRecord),
      ffm.collection.UpdateOne run (fun d => d.ID == f) newValues = (.ok res, c1) →
        ffm.PushOne run f newValues = (f, none, { collection := c1 })) ∧
    (∀ (f : ObjectID) (newValues : Update FeatureFlagRecord) (res : UpdateResult)
        (c1 : Collection FeatureFlagRecord),
      (∀ d ∈ ffm.collection.docs, d.ID ≠ f) →
      ffm.collection.UpdateOne run (fun d => d.ID == f) newValues = (.ok res, c1) →
        res.MatchedCount = 0 ∧
        ffm.PushOne run f newValues = (f, none, ffm) ∧
        (ffm.PushOne run f newValues).2.2.FindByID Run.healthy f
          = .error Error.ErrNoDocuments) ∧
    (∀ (filters : Filter FeatureFlagRecord) (newValues : Update FeatureFlagRecord)
        (res : UpdateResult) (c1 : Collection FeatureFlagRecord),
      (∀ d ∈ ffm.collection.docs, filters d = false) →
      ffm.collection.UpdateOne run filters newValues = (.ok res, c1) →
        res.MatchedCount = 0 ∧
        ffm.UpdateOne run filters newValues = (NilObjectID, none, ffm)) := by
  have hdriver : ∀ (filters : Filter FeatureFlagRecord) (newValues : Update FeatureFlagRecord)
      (res : UpdateResult) (c1 : Collection FeatureFlagRecord),
      (∀ d ∈ ffm.collection.docs, filters d = false) →
      ffm.collection.UpdateOne run filters newValues = (.ok res, c1) →
        res.MatchedCount = 0 ∧ c1 = ffm.collection := by
    intro filters newValues res c1 hno hcall
    have hupd := updateFirst_no_match filters newValues ffm.collection.docs hno
    cases hrun : run.call with
    | some e => simp [Collection.UpdateOne, hrun] at hcall
    | none =>
      simp only [Collection.UpdateOne, hrun, hupd, Prod.mk.injEq, Except.ok.injEq] at hcall
      obtain ⟨hres, hc1⟩ := hcall
      subst hres
      subst hc1
      exact ⟨rfl, rfl⟩
  refine ⟨?_, ?_, ?_⟩
  · intro f newValues res c1 hcall
    simp [FeatureFlagModel.PushOne, hcall]
  · intro f newValues res c1 habsent hcall
    have hno : ∀ d ∈ ffm.collection.docs, (fun d : FeatureFlagRecord => d.ID == f) d = false := by
      intro d hd
      simpa using habsent d hd
    obtain ⟨hres, hc1⟩ := hdriver _ newValues res c1 hno hcall
    have hpush : ffm.PushOne run f newValues = (f, none, ffm) := by
      simp [FeatureFlagModel.PushOne, hcall, hc1]
    refine ⟨hres, hpush, ?_⟩
    rw [hpush]
    have hfind : ffm.collection.docs.find? (fun d => d.ID == f) = none := by
      rw [List.find?_eq_none]
      intro d hd
      simpa using habsent d hd
    simp [FeatureFlagModel.FindByID, Collection.FindOne, Run.healthy, hfind]
  · intro filters newValues res c1 hno hcall
    obtain ⟨hres, hc1⟩ := hdriver filters newValues res c1 hno hcall
    refine ⟨hres, ?_⟩
    simp [FeatureFlagModel.UpdateOne, hcall, hc1]

/-- C10 at the three-flag store and the absent id 99: `PushOne` answers `(99, nil)` and the
store is as before. -/
theorem PushOne_UpdateOne_ignore_match_count_witness :
    (∀ d ∈ flagStore.collection.docs, d.ID ≠ 99) ∧
    flagStore.collection.UpdateOne Run.healthy (fun d => d.ID == 99) (pushRevisions liveRevision)
      = (.ok { MatchedCount := 0, ModifiedCount := 0 }, flagStore.collection) ∧
    flagStore.PushOne Run.healthy 99 (pushRevisions liveRevision) = (99, none, flagStore) :=
  have habsent : ∀ d ∈ flagStore.collection.docs, d.ID ≠ 99 := by decide
  ⟨habsent, rfl,
   ((PushOne_UpdateOne_ignore_match_count flagStore Run.healthy).2.1 99
      (pushRevisions liveRevision) _ _ habsent rfl).2.1⟩

/-! ## Listing the flags of an organization -/

/-- The slice the loop of `FindMany` returns is never nil. -/
theorem FindMany_loop_not_nil (steps : List (Except Error FeatureFlagRecord))
    (records : List FeatureFlagRecord) :
    (FeatureFlagModel.FindMany.loop steps records).1 ≠ none := by
  induction steps generalizing records with
  | nil => simp [FeatureFlagModel.FindMany.loop]
  | cons step rest ih =>
    cases step with
    | error e => simp [FeatureFlagModel.FindMany.loop, EmptyFeatureRecordList]
    | ok r =>
      simp only [FeatureFlagModel.FindMany.loop]
      exact ih _

/-- With a non-nil error the loop of `FindMany` returns the empty list. -/
theorem FindMany_loop_error (steps : List (Except Error FeatureFlagRecord))
    (records : List FeatureFlagRecord)
    (herr : (FeatureFlagModel.FindMany.loop steps records).2 ≠ none) :
    (FeatureFlagModel.FindMany.loop steps records).1 = some [] := by
  induction steps generalizing records with
  | nil => simp [FeatureFlagModel.FindMany.loop] at herr
  | cons step rest ih =>
    cases step with
    | error e => simp [FeatureFlagModel.FindMany.loop, EmptyFeatureRecordList]
    | ok r =>
      simp only [FeatureFlagModel.FindMany.loop] at herr ⊢
      exact ih _ herr

/-- With a nil error the loop of `FindMany` has decoded every step of the cursor and returns
the decoded records after `records`, in the order of the steps. -/
theorem FindMany_loop_success (steps : List (Except Error FeatureFlagRecord))
    (records : List FeatureFlagRecord)
    (hnil : (FeatureFlagModel.FindMany.loop steps records).2 = none) :
    ∃ yielded : List FeatureFlagRecord,
      steps = yielded.map Except.ok ∧
      (FeatureFlagModel.FindMany.loop steps records).1 = some (records ++ yielded) := by
  induction steps generalizing records with
  | nil => exact ⟨[], rfl, by simp [FeatureFlagModel.FindMany.loop]⟩
  | cons step rest ih =>
    cases step with
    | error e => simp [FeatureFlagModel.FindMany.loop] at hnil
    | ok r =>
      simp only [FeatureFlagModel.FindMany.loop] at hnil ⊢
      obtain ⟨ys, hsteps, hres⟩ := ih _ hnil
      refine ⟨r :: ys, ?_, ?_⟩
      · simp [hsteps]
      · rw [hres]
        simp

/-- A cursor none of whose advances fails, and whose steps all decode, has delivered
exactly the documents it was opened over. -/
theorem Cursor_over_all_decoded {α : Type} (run : Run) (hnext : ∀ i, run.next i = none)
    (i : Nat) (pending yielded : List α)
    (hsteps : (Cursor.over run i pending).steps = yielded.map Except.ok) :
    yielded = pending := by
  induction pending generalizing i yielded with
  | nil =>
    cases yielded with
    | nil => rfl
    | cons y ys => simp [Cursor.over] at hsteps
  | cons d ds ih =>
    cases yielded with
    | nil => simp [Cursor.over, hnext i] at hsteps
    | cons y ys =>
      simp only [Cursor.over, hnext i, List.map_cons, List.cons.injEq] at hsteps
      obtain ⟨hhead, htail⟩ := hsteps
      have hys := ih (i + 1) ys htail
      cases hdec : run.decode i with
      | some e => simp [hdec] at hhead
      | none =>
        simp only [hdec, Except.ok.injEq] at hhead
        rw [hhead, hys]

/-- C7: the slice `FindMany` returns is never nil; when no flag has the organization id and
the find call goes through, it is the empty slice with a nil error; with a non-nil error it
is the empty sentinel; with a nil error it holds exactly the flags that the cursor yielded,
in cursor order, which are all the flags of the organization, in storage order, when no
advance of the cursor failed. -/
theorem FindMany_spec (ffm : FeatureFlagModel) (run : Run) (organizationID : ObjectID) :
    (ffm.FindMany run organizationID).1 ≠ none ∧
    ((∀ d ∈ ffm.collection.docs, d.OrganizationID ≠ organizationID) → run.call = none →
      ffm.FindMany run organizationID = (some [], none)) ∧
    ((ffm.FindMany run organizationID).2 ≠ none →
      (ffm.FindMany run organizationID).1 = EmptyFeatureRecordList ∧
      (ffm.FindMany run organizationID).1 = some []) ∧
    ((ffm.FindMany run organizationID).2 = none →
      ∃ (cursor : Cursor FeatureFlagRecord) (yielded : List FeatureFlagRecord),
        ffm.collection.Find run (fun d => d.OrganizationID == organizationID) = .ok cursor ∧
        cursor.steps = yielded.map Except.ok ∧
        (ffm.FindMany run organizationID).1 = some yielded ∧
        ((∀ i, run.next i = none) →
          yielded = ffm.collection.docs.filter (fun d => d.OrganizationID == organizationID))) := by
  refine ⟨?_, ?_, ?_, ?_⟩
  · unfold FeatureFlagModel.FindMany
    cases hfind : ffm.collection.Find run (fun d => d.OrganizationID == organizationID) with
    | error e => simp [EmptyFeatureRecordList]
    | ok cursor => exact FindMany_loop_not_nil _ _
  · intro hnone hcall
    have hfilter : ffm.collection.docs.filter (fun d => d.OrganizationID == organizationID)
        = [] := by
      rw [List.filter_eq_nil_iff]
      intro d hd
      simpa using hnone d hd
    simp [FeatureFlagModel.FindMany, Collection.Find, hcall, hfilter, Cursor.over,
      FeatureFlagModel.FindMany.loop]
  · intro herr
    have hempty : (ffm.FindMany run organizationID).1 = some [] := by
      unfold FeatureFlagModel.FindMany at herr ⊢
      cases hfind : ffm.collection.Find run (fun d => d.OrganizationID == organizationID) with
      | error e => simp [EmptyFeatureRecordList]
      | ok cursor =>
        rw [hfind] at herr
        exact FindMany_loop_error _ _ herr
    exact ⟨hempty, hempty⟩
  · intro hnil
    unfold FeatureFlagModel.FindMany at hnil ⊢
    cases hfind : ffm.collection.Find run (fun d => d.OrganizationID == organizationID) with
    | error e =>
      rw [hfind] at hnil
      simp at hnil
    | ok cursor =>
      rw [hfind] at hnil
      obtain ⟨yielded, hsteps, hres⟩ := FindMany_loop_success cursor.steps [] hnil
      refine ⟨cursor, yielded, rfl, hsteps, ?_, ?_⟩
      · simpa using hres
      · intro hnext
        cases hcall : run.call with
        | some e => simp [Collection.Find, hcall] at hfind
        | none =>
          simp only [Collection.Find, hcall, Except.ok.injEq] at hfind
          rw [← hfind] at hsteps
          exact Cursor_over_all_decoded run hnext 0 _ _ hsteps

/-- C7 at the three-flag store: organization 9 has no flag and gets the empty slice with a
nil error; organization 7 gets its two flags in storage order. -/
theorem FindMany_spec_witness :
    (∀ d ∈ flagStore.collection.docs, d.OrganizationID ≠ 9) ∧
    flagStore.FindMany Run.healthy 9 = (some [], none) ∧
    flagStore.FindMany Run.healthy 7 = (some [darkMode, banner], none) :=
  have hnone : ∀ d ∈ flagStore.collection.docs, d.OrganizationID ≠ 9 := by decide
  ⟨hnone, (FindMany_spec flagStore Run.healthy 9).2.1 hnone rfl, rfl⟩

/-! ## Inserting records -/

/-- C8: `InsertOne` of either store replaces the `ID` of the record by the next generated id,
whatever it was, and that is the document appended to the collection; when the insert call
fails it returns the nil object id with that error and stores nothing; when the reported
identifier is not an object id it returns the nil object id with an error; otherwise it
returns the reported identifier with a nil error, which is the new `ID` of the record when
the driver echoes the stored `_id`. -/
theorem InsertOne_spec (run : Run) (s : Sys) :
    (∀ (ffm : FeatureFlagModel) (rec : FeatureFlagRecord),
      (ffm.InsertOne run rec s).2.2.1 = { rec with ID := s.ids s.made } ∧
      (run.call = none →
        (ffm.InsertOne run rec s).2.2.2.1.collection.docs
          = ffm.collection.docs ++ [{ rec with ID := s.ids s.made }]) ∧
      (∀ e : Error, run.call = some e →
        (ffm.InsertOne run rec s).1 = NilObjectID ∧ (ffm.InsertOne run rec s).2.1 = some e ∧
        (ffm.InsertOne run rec s).2.2.2.1 = ffm) ∧
      (∀ repr : String, run.call = none → run.insertedID (s.ids s.made) = Any.other repr →
        (ffm.InsertOne run rec s).1 = NilObjectID ∧
        (ffm.InsertOne run rec s).2.1 = some Error.unableToAssertObjectID) ∧
      (∀ id : ObjectID, run.call = none → run.insertedID (s.ids s.made) = Any.objectID id →
        (ffm.InsertOne run rec s).1 = id ∧ (ffm.InsertOne run rec s).2.1 = none) ∧
      (run.call = none → run.insertedID (s.ids s.made) = Any.objectID (s.ids s.made) →
        (ffm.InsertOne run rec s).1 = (ffm.InsertOne run rec s).2.2.1.ID)) ∧
    (∀ (om : OrganizationModel) (record : OrganizationRecord),
      (om.InsertOne run record s).2.2.1 = { record with ID := s.ids s.made } ∧
      (run.call = none →
        (om.InsertOne run record s).2.2.2.1.collection.docs
          = om.collection.docs ++ [{ record with ID := s.ids s.made }]) ∧
      (∀ e : Error, run.call = some e →
        (om.InsertOne run record s).1 = NilObjectID ∧ (om.InsertOne run record s).2.1 = some e ∧
        (om.InsertOne run record s).2.2.2.1 = om) ∧
      (∀ repr : String, run.call = none → run.insertedID (s.ids s.made) = Any.other repr →
        (om.InsertOne run record s).1 = NilObjectID ∧
        (om.InsertOne run record s).2.1 = some Error.unableToAssertObjectID) ∧
      (∀ id : ObjectID, run.call = none → run.insertedID (s.ids s.made) = Any.objectID id →
        (om.InsertOne run record s).1 = id ∧ (om.InsertOne run record s).2.1 = none) ∧
      (run.call = none → run.insertedID (s.ids s.made) = Any.objectID (s.ids s.made) →
        (om.InsertOne run record s).1 = (om.InsertOne run record s).2.2.1.ID)) := by
  constructor
  · intro ffm rec
    refine ⟨?_, ?_, ?_, ?_, ?_, ?_⟩
    · cases hcall : run.call with
      | some e =>
        simp [FeatureFlagModel.InsertOne, Sys.NewObjectID, Collection.InsertOne, hcall]
      | none =>
        cases hrep : run.insertedID (s.ids s.made) <;>
          simp [FeatureFlagModel.InsertOne, Sys.NewObjectID, Collection.InsertOne, hcall, hrep,
            Any.assertObjectID]
    · intro hcall
      cases hrep : run.insertedID (s.ids s.made) <;>
        simp [FeatureFlagModel.InsertOne, Sys.NewObjectID, Collection.InsertOne, hcall, hrep,
          Any.assertObjectID]
    · intro e hcall
      simp [FeatureFlagModel.InsertOne, Sys.NewObjectID, Collection.InsertOne, hcall]
    · intro repr hcall hrep
      simp [FeatureFlagModel.InsertOne, Sys.NewObjectID, Collection.InsertOne, hcall, hrep,
        Any.assertObjectID]
    · intro id hcall hrep
      simp [FeatureFlagModel.InsertOne, Sys.NewObjectID, Collection.InsertOne, hcall, hrep,
        Any.assertObjectID]
    · intro hcall hrep
      simp [FeatureFlagModel.InsertOne, Sys.NewObjectID, Collection.InsertOne, hcall, hrep,
        Any.assertObjectID]
  · intro om record
    refine ⟨?_, ?_, ?_, ?_, ?_, ?_⟩
    · cases hcall : run.call with
      | some e =>
        simp [OrganizationModel.InsertOne, Sys.NewObjectID, Collection.InsertOne, hcall]
      | none =>
        cases hrep : run.insertedID (s.ids s.made) <;>
          simp [OrganizationModel.InsertOne, Sys.NewObjectID, Collection.InsertOne, hcall, hrep,
            Any.assertObjectID]
    · intro hcall
      cases hrep : run.insertedID (s.ids s.made) <;>
        simp [OrganizationModel.InsertOne, Sys.NewObjectID, Collection.InsertOne, hcall, hrep,
          Any.assertObjectID]
    · intro e hcall
      simp [OrganizationModel.InsertOne, Sys.NewObjectID, Collection.InsertOne, hcall]
    · intro repr hcall hrep
      simp [OrganizationModel.InsertOne, Sys.NewObjectID, Collection.InsertOne, hcall, hrep,
        Any.assertObjectID]
    · intro id hcall hrep
      simp [OrganizationModel.InsertOne, Sys.NewObjectID, Collection.InsertOne, hcall, hrep,
        Any.assertObjectID]
    · intro hcall hrep
      simp [OrganizationModel.InsertOne, Sys.NewObjectID, Collection.InsertOne, hcall, hrep,
        Any.assertObjectID]

/-- C8 for the flag "quota", which the caller hands over with id 33, under a generator whose
next id is 1: the record is stored under id 1, and 1 is returned. -/
theorem InsertOne_spec_witness :
    Run.healthy.call = none ∧
    Run.healthy.insertedID (frozenClock.ids frozenClock.made)
      = Any.objectID (frozenClock.ids frozenClock.made) ∧
    (flagStore.InsertOne Run.healthy quota frozenClock).1
      = (flagStore.InsertOne Run.healthy quota frozenClock).2.2.1.ID ∧
    (flagStore.InsertOne Run.healthy quota frozenClock).1 = 1 ∧
    (flagStore.InsertOne Run.healthy quota frozenClock).2.2.2.1.collection.docs
      = [darkMode, quota, banner, { quota with ID := 1 }] :=
  have h := (InsertOne_spec Run.healthy frozenClock).1 flagStore quota
  ⟨rfl, rfl, h.2.2.2.2.2 rfl rfl, rfl, h.2.1 rfl⟩

/-! ## Error propagation -/

/-- A failure of the insert, find or update call itself is returned by every store
operation, and so is a failure to decode the document that `FindByID` found; an id that no
document has makes `FindByID` return `mongo.ErrNoDocuments` and no record. -/
theorem store_call_errors_returned (run : Run) (e : Error) (hcall : run.call = some e)
    (ffm : FeatureFlagModel) (om : OrganizationModel) (s : Sys) :
    (∀ id, ffm.FindByID run id = .error e) ∧
    (∀ id, om.FindByID run id = .error e) ∧
    (∀ rec, (ffm.InsertOne run rec s).2.1 = some e) ∧
    (∀ record, (om.InsertOne run record s).2.1 = some e) ∧
    (∀ organizationID, ffm.FindMany run organizationID = (some [], some e)) ∧
    (∀ id newValues, (ffm.PushOne run id newValues).2.1 = some e) ∧
    (∀ filters newValues, (ffm.UpdateOne run filters newValues).2.1 = some e) := by
  refine ⟨?_, ?_, ?_, ?_, ?_, ?_, ?_⟩
  · intro id
    simp [FeatureFlagModel.FindByID, Collection.FindOne, hcall]
  · intro id
    simp [OrganizationModel.FindByID, Collection.FindOne, hcall]
  · intro rec
    simp [FeatureFlagModel.InsertOne, Sys.NewObjectID, Collection.InsertOne, hcall]
  · intro record
    simp [OrganizationModel.InsertOne, Sys.NewObjectID, Collection.InsertOne, hcall]
  · intro organizationID
    simp [FeatureFlagModel.FindMany, Collection.Find, hcall, EmptyFeatureRecordList]
  · intro id newValues
    simp [FeatureFlagModel.PushOne, Collection.UpdateOne, hcall]
  · intro filters newValues
    simp [FeatureFlagModel.UpdateOne, Collection.UpdateOne, hcall]

/-- `FindByID` of an id that no flag has returns `mongo.ErrNoDocuments` in place of a record,
and a failure to decode the flag found is returned as well. -/
theorem FindByID_absent_or_undecodable (ffm : FeatureFlagModel) (run : Run) (id : ObjectID)
    (hcall : run.call = none) :
    ((∀ d ∈ ffm.collection.docs, d.ID ≠ id) →
      ffm.FindByID run id = .error Error.ErrNoDocuments) ∧
    (∀ (flag : FeatureFlagRecord) (e : Error),
      ffm.collection.docs.find? (fun d => d.ID == id) = some flag → run.decode 0 = some e →
        ffm.FindByID run id = .error e) := by
  constructor
  · intro habsent
    have hfind : ffm.collection.docs.find? (fun d => d.ID == id) = none := by
      rw [List.find?_eq_none]
      intro d hd
      simpa using habsent d hd
    simp [FeatureFlagModel.FindByID, Collection.FindOne, hcall, hfind]
  · intro flag e hfind hdec
    simp [FeatureFlagModel.FindByID, Collection.FindOne, hcall, hfind, hdec]

/-- A run in which the second advance of a cursor fails and every other step works. -/
def secondAdvanceFails : Run :=
  { Run.healthy with
    next := fun i => if i = 1 then some (Error.driver "connection reset by peer") else none }

/-- C6 fails for an advance of the `FindMany` cursor: with the three-flag store, where
organization 7 has "dark-mode" and "banner", and a run in which the second advance of the
cursor fails, the cursor ends with that error in `Err()`, yet `FindMany` returns the one
flag read so far together with a nil error. -/
theorem FindMany_swallows_cursor_error :
    secondAdvanceFails.next 1 = some (Error.driver "connection reset by peer") ∧
    flagStore.collection.Find secondAdvanceFails (fun d => d.OrganizationID == 7)
      = .ok { steps := [.ok darkMode], err := some (Error.driver "connection reset by peer") } ∧
    flagStore.FindMany secondAdvanceFails 7 = (some [darkMode], none) ∧
    flagStore.FindMany Run.healthy 7 = (some [darkMode, banner], none) := by
  refine ⟨rfl, rfl, rfl, rfl⟩

end Togglelabs
